import Mathlib

/- Shallow embedding of the browser image-classification demo
   (src/main.js and src/unnamed/part_000): the softmax postprocessor, the
   top-K label selection, and the pixel-buffer-to-tensor preprocessor.
   Real numbers stand for JavaScript numbers; a thrown JavaScript
   exception is modelled as an `Option.none` result. -/

namespace WebNN

/-- Model of `softmax` from `src/main.js` lines 73-87.  `Math.max(...a)` on a
non-empty array is a left fold of `max` starting from the first element;
`Array.prototype.map` then applies `exp(x - largestNumber)` to every item, and
`Array.prototype.reduce` with no initial value throws a `TypeError` on an
empty array (hence `none` for `[]`) and otherwise folds `+` from the first
mapped element; finally every item is divided by that sum.  The index
parameter of the final `map` callback is unused in the source. -/
noncomputable def softmaxMain (resultArray : List ℝ) : Option (List ℝ) :=
  match resultArray with
  | [] => none
  | h :: t =>
    let largestNumber := t.foldl max h
    let sumOfExp := (t.map fun x => Real.exp (x - largestNumber)).foldl (· + ·)
      (Real.exp (h - largestNumber))
    some ((h :: t).map fun v => Real.exp (v - largestNumber) / sumOfExp)

/-- Model of `softmax` from `src/unnamed/part_000` lines 160-169; the source
text is the same algorithm as the one in `src/main.js` (its final `map`
callback simply omits the unused index parameter). -/
noncomputable def softmaxPart (resultArray : List ℝ) : Option (List ℝ) :=
  match resultArray with
  | [] => none
  | h :: t =>
    let largestNumber := t.foldl max h
    let sumOfExp := (t.map fun x => Real.exp (x - largestNumber)).foldl (· + ·)
      (Real.exp (h - largestNumber))
    some ((h :: t).map fun v => Real.exp (v - largestNumber) / sumOfExp)

/-- Largest element of a score list, as computed by `Math.max(...scores)` on a
non-empty array; the value at `[]` is never used because `softmax` fails
there. -/
noncomputable def listMax : List ℝ → ℝ
  | [] => 0
  | h :: t => t.foldl max h

/-- Sum of the shifted exponentials `exp(scores[j] - max(scores))` over the
whole score list. -/
noncomputable def expSum (scores : List ℝ) : ℝ :=
  (scores.map fun v => Real.exp (v - listMax scores)).sum

lemma foldl_add_eq_sum (l : List ℝ) (a : ℝ) : l.foldl (· + ·) a = a + l.sum := by
  induction l generalizing a with
  | nil => simp
  | cons x xs ih => simp only [List.foldl_cons, ih, List.sum_cons]; ring

lemma softmaxMain_eq_map (h : ℝ) (t : List ℝ) :
    softmaxMain (h :: t) =
      some ((h :: t).map fun v => Real.exp (v - listMax (h :: t)) / expSum (h :: t)) := by
  simp only [softmaxMain, listMax, expSum, foldl_add_eq_sum, List.map_cons, List.sum_cons]

lemma expSum_pos (h : ℝ) (t : List ℝ) : 0 < expSum (h :: t) := by
  refine List.sum_pos _ (fun x hx => ?_) (by simp)
  obtain ⟨v, _, rfl⟩ := List.mem_map.1 hx
  exact Real.exp_pos _

lemma sum_map_div (l : List ℝ) (c : ℝ) : (l.map fun v => v / c).sum = l.sum / c := by
  induction l with
  | nil => simp
  | cons x xs ih => simp [List.sum_cons, ih, add_div]

lemma listMax_shift (h : ℝ) (t : List ℝ) (c : ℝ) :
    listMax ((h :: t).map fun v => v + c) = listMax (h :: t) + c := by
  show (t.map fun v => v + c).foldl max (h + c) = t.foldl max h + c
  induction t generalizing h with
  | nil => rfl
  | cons y ys ih =>
    simp only [List.map_cons, List.foldl_cons]
    rw [max_add_add_right]
    exact ih (max h y)

lemma expSum_shift (h : ℝ) (t : List ℝ) (c : ℝ) :
    expSum ((h :: t).map fun v => v + c) = expSum (h :: t) := by
  unfold expSum
  rw [listMax_shift, List.map_map]
  refine congrArg List.sum (List.map_congr_left fun a _ => ?_)
  simp only [Function.comp_apply]
  congr 1
  ring

/-- C7: on the empty score vector, `softmax` fails (the `reduce` with no
initial value throws) instead of returning a value. -/
theorem softmax_empty_fails : softmaxMain ([] : List ℝ) = none := rfl

/-- C8: the `softmax` of `src/main.js` and the `softmax` of
`src/unnamed/part_000` compute the same function. -/
theorem softmax_main_eq_part (x : List ℝ) : softmaxMain x = softmaxPart x := rfl

/-- C1 (amended): on every non-empty score vector, `softmax` succeeds and
returns a list of equal length whose elements are `exp(x[i] - max x)` divided
by the sum of all shifted exponentials; every element lies in the half-open
interval `(0, 1]` and the elements sum to exactly `1` in real arithmetic
(hence within any positive tolerance such as `1e-6`). -/
theorem softmax_contract (x : List ℝ) (hx : x ≠ []) :
    ∃ out, softmaxMain x = some out ∧
      out.length = x.length ∧
      (∀ y ∈ out, 0 < y ∧ y ≤ 1) ∧
      out.sum = 1 ∧
      ∀ i, i < x.length →
        out.getD i 0 = Real.exp (x.getD i 0 - listMax x) / expSum x := by
  cases x with
  | nil => exact absurd rfl hx
  | cons h t =>
    refine ⟨(h :: t).map fun v => Real.exp (v - listMax (h :: t)) / expSum (h :: t),
      softmaxMain_eq_map h t, by simp, ?_, ?_, ?_⟩
    · intro y hy
      obtain ⟨v, hv, rfl⟩ := List.mem_map.1 hy
      have hS := expSum_pos h t
      refine ⟨div_pos (Real.exp_pos _) hS, ?_⟩
      rw [div_le_one hS]
      refine List.single_le_sum (fun b hb => ?_) _
        (List.mem_map_of_mem (fun v => Real.exp (v - listMax (h :: t))) hv)
      obtain ⟨w, _, rfl⟩ := List.mem_map.1 hb
      exact (Real.exp_pos _).le
    · have hmm : ((h :: t).map fun v => Real.exp (v - listMax (h :: t)) / expSum (h :: t))
          = ((h :: t).map fun v => Real.exp (v - listMax (h :: t))).map
              fun w => w / expSum (h :: t) := by
        rw [List.map_map]
        rfl
      rw [hmm, sum_map_div]
      exact div_self (ne_of_gt (expSum_pos h t))
    · intro i hi
      have hi' : i < ((h :: t).map fun v =>
          Real.exp (v - listMax (h :: t)) / expSum (h :: t)).length := by simpa using hi
      rw [List.getD_eq_getElem _ _ hi', List.getD_eq_getElem _ _ hi, List.getElem_map]

/-- Witness for C1: the amended contract instantiated at the concrete score
vector `[0]`. -/
theorem softmax_contract_witness :
    ∃ out, softmaxMain [(0 : ℝ)] = some out ∧
      out.length = ([(0 : ℝ)]).length ∧
      (∀ y ∈ out, 0 < y ∧ y ≤ 1) ∧
      out.sum = 1 ∧
      ∀ i, i < ([(0 : ℝ)]).length →
        out.getD i 0 = Real.exp (([(0 : ℝ)]).getD i 0 - listMax [(0 : ℝ)]) /
          expSum [(0 : ℝ)] :=
  softmax_contract [0] (by simp)

/-- Counterexample to C1 as stated: on the singleton score vector `[0]` the
output element is exactly `1`, which does not lie in the open interval
`(0, 1)`. -/
theorem softmax_singleton_hits_one :
    softmaxMain [(0 : ℝ)] = some [1] ∧ ¬ ((1 : ℝ) < 1) := by
  refine ⟨?_, lt_irrefl 1⟩
  simp [softmaxMain, Real.exp_zero]

/-- C5: `softmax` is invariant under adding the same constant to every
score. -/
theorem softmax_shift_invariant (x : List ℝ) (c : ℝ) :
    softmaxMain (x.map fun v => v + c) = softmaxMain x := by
  cases x with
  | nil => rfl
  | cons h t =>
    have hmap : (h :: t).map (fun v => v + c) = (h + c) :: t.map (fun v => v + c) := rfl
    rw [hmap, softmaxMain_eq_map, softmaxMain_eq_map, ← hmap, listMax_shift, expSum_shift]
    refine congrArg (fun l => some l) ?_
    rw [List.map_map]
    refine List.map_congr_left fun a _ => ?_
    simp only [Function.comp_apply]
    have harg : a + c - (listMax (h :: t) + c) = a - listMax (h :: t) := by ring
    rw [harg]

/-- C9: `softmax` is order-preserving in exact arithmetic: the comparison of
any two scores agrees with the comparison of the corresponding output
probabilities. -/
theorem softmax_order_preserving (x out : List ℝ) (hout : softmaxMain x = some out)
    (i j : ℕ) (hi : i < x.length) (hj : j < x.length) :
    x.getD i 0 ≤ x.getD j 0 ↔ out.getD i 0 ≤ out.getD j 0 := by
  cases x with
  | nil => simp [softmaxMain] at hout
  | cons h t =>
    rw [softmaxMain_eq_map] at hout
    obtain rfl := (Option.some.inj hout).symm
    have hS := expSum_pos h t
    have hi' : i < ((h :: t).map fun v =>
        Real.exp (v - listMax (h :: t)) / expSum (h :: t)).length := by simpa using hi
    have hj' : j < ((h :: t).map fun v =>
        Real.exp (v - listMax (h :: t)) / expSum (h :: t)).length := by simpa using hj
    rw [List.getD_eq_getElem _ _ hi', List.getD_eq_getElem _ _ hj', List.getElem_map,
      List.getElem_map, List.getD_eq_getElem _ _ hi, List.getD_eq_getElem _ _ hj,
      div_le_div_iff_of_pos_right hS, Real.exp_le_exp, sub_le_sub_iff_right]

/-- Concrete output of `softmax [0, 1]`, used by the order-preservation
witness. -/
noncomputable def softmaxOutZeroOne : List ℝ :=
  [Real.exp (0 - 1) / (Real.exp (0 - 1) + Real.exp (1 - 1)),
   Real.exp (1 - 1) / (Real.exp (0 - 1) + Real.exp (1 - 1))]

lemma softmaxMain_zero_one : softmaxMain [(0 : ℝ), 1] = some softmaxOutZeroOne := by
  have hmax : max (0 : ℝ) 1 = 1 := max_eq_right zero_le_one
  simp [softmaxMain, softmaxOutZeroOne, hmax]

/-- Witness for C9: order preservation instantiated at the score vector
`[0, 1]` and indices `0`, `1`. -/
theorem softmax_order_preserving_witness :
    (([(0 : ℝ), 1]).getD 0 0 ≤ ([(0 : ℝ), 1]).getD 1 0) ↔
      (softmaxOutZeroOne.getD 0 0 ≤ softmaxOutZeroOne.getD 1 0) :=
  softmax_order_preserving [0, 1] softmaxOutZeroOne softmaxMain_zero_one 0 1
    (by simp) (by simp)

/-- Record produced by `getTopK` in `src/unnamed/part_000` lines 179-186:
`{ id: index, name, probability: prob }`. -/
structure PredictionPart where
  id : ℕ
  name : String
  probability : ℚ
deriving DecidableEq

/-- Record produced by `imagenetClassesTopK` in `src/main.js` lines 101-109:
`{ id: iClass[0], index, name: iClass[1], probability }`. -/
structure PredictionMain where
  id : ℕ
  index : ℕ
  name : String
  probability : ℚ
deriving DecidableEq

/-- The `imagenetClasses` table from `src/unnamed/part_000` lines 2-9: twenty
`[index, underscore-separated-name]` entries. -/
def imagenetClasses : List (ℕ × String) :=
  [(0, "tench"), (1, "goldfish"), (2, "great_white_shark"), (3, "tiger_shark"),
   (4, "hammerhead"), (5, "electric_ray"), (6, "stingray"), (7, "cock"),
   (8, "hen"), (9, "ostrich"), (10, "brambling"), (11, "goldfinch"),
   (12, "house_finch"), (13, "junco"), (14, "indigo_bunting"), (15, "robin"),
   (16, "bulbul"), (17, "jay"), (18, "magpie"), (19, "chickadee")]

/-- The JavaScript `name.replace(/_/g, " ")`: every underscore character is
replaced by a space. -/
def replaceUnderscores (s : String) : String :=
  String.mk (s.data.map fun ch => if ch = '_' then ' ' else ch)

/-- `probs.map((prob, index) => [prob, index])`: pair every probability with
its original index. -/
def pairsOf (probs : List ℚ) : List (ℚ × ℕ) :=
  probs.enum.map fun e => (e.2, e.1)

/-- The sort in `getTopK` (`src/unnamed/part_000` line 176):
`.sort((a, b) => b[0] - a[0])`, a stable sort by descending probability.  A
stable sort is modelled by insertion sort, which places each element before
the already-sorted elements it compares equal to that originate further
right. -/
def sortedDesc (probs : List ℚ) : List (ℚ × ℕ) :=
  List.insertionSort (fun a b => b.1 ≤ a.1) (pairsOf probs)

/-- Model of `getTopK` from `src/unnamed/part_000` lines 171-187: pair, sort
descending, `slice(0, k)`, then build records, looking each index up in
`imagenetClasses` with a `class_<index>` fallback. -/
def getTopK (classProbabilities : List ℚ) (k : ℕ) : List PredictionPart :=
  ((sortedDesc classProbabilities).take k).map fun p =>
    let className := match imagenetClasses.get? p.2 with
      | some c => c.2
      | none => "class_" ++ toString p.2
    { id := p.2, name := replaceUnderscores className, probability := p.1 }

/-- The sort in `imagenetClassesTopK` (`src/main.js` lines 94-99):
`_.reverse(_.sortBy(pairs, p => p[0]))`, a stable ascending sort followed by
reversal. -/
def sortedMain (probs : List ℚ) : List (ℚ × ℕ) :=
  (List.insertionSort (fun a b => a.1 ≤ b.1) (pairsOf probs)).reverse

/-- Record construction in `imagenetClassesTopK` (`src/main.js` lines
101-108): `imagenetClasses[probIndex[1]]` is read without a guard, so a
missing table entry makes `iClass[0]` throw a `TypeError` (modelled as
`none`). -/
def buildRecords : List (ℚ × ℕ) → Option (List PredictionMain)
  | [] => some []
  | p :: rest =>
    match imagenetClasses.get? p.2 with
    | none => none
    | some c => (buildRecords rest).map fun rs =>
        { id := c.1, index := p.2, name := replaceUnderscores c.2,
          probability := p.1 } :: rs

/-- Model of `imagenetClassesTopK` from `src/main.js` lines 89-111. -/
def imagenetClassesTopK (classProbabilities : List ℚ) (k : ℕ) :
    Option (List PredictionMain) :=
  buildRecords ((sortedMain classProbabilities).take k)

lemma pairwise_orderedInsert_stable {α : Type} (r : α → α → Prop) [DecidableRel r]
    (htot : ∀ a b, r a b ∨ r b a) (htrans : ∀ a b c, r a b → r b c → r a c)
    (idx : α → ℕ) (a : α) (l : List α)
    (hl : List.Pairwise (fun p q => r p q ∧ (r q p → idx p < idx q)) l)
    (ha : ∀ b ∈ l, idx a < idx b) :
    List.Pairwise (fun p q => r p q ∧ (r q p → idx p < idx q))
      (List.orderedInsert r a l) := by
  induction l with
  | nil => exact List.pairwise_singleton _ _
  | cons y ys ih =>
    obtain ⟨hy, hys⟩ := List.pairwise_cons.1 hl
    by_cases hr : r a y
    · simp only [List.orderedInsert]
      rw [if_pos hr]
      refine List.pairwise_cons.2 ⟨?_, hl⟩
      intro b hb
      rcases List.mem_cons.1 hb with rfl | hb'
      · exact ⟨hr, fun _ => ha _ (List.mem_cons_self _ _)⟩
      · exact ⟨htrans a y b hr (hy b hb').1, fun _ => ha b (List.mem_cons_of_mem _ hb')⟩
    · simp only [List.orderedInsert]
      rw [if_neg hr]
      refine List.pairwise_cons.2
        ⟨?_, ih hys (fun b hb => ha b (List.mem_cons_of_mem _ hb))⟩
      intro b hb
      have hb' : b ∈ a :: ys := (List.perm_orderedInsert r a ys).mem_iff.1 hb
      rcases List.mem_cons.1 hb' with rfl | hbys
      · rcases htot b y with hay | hya
        · exact absurd hay hr
        · exact ⟨hya, fun hay => absurd hay hr⟩
      · exact hy b hbys

lemma pairwise_insertionSort_stable {α : Type} (r : α → α → Prop) [DecidableRel r]
    (htot : ∀ a b, r a b ∨ r b a) (htrans : ∀ a b c, r a b → r b c → r a c)
    (idx : α → ℕ) (l : List α)
    (hl : List.Pairwise (fun p q => idx p < idx q) l) :
    List.Pairwise (fun p q => r p q ∧ (r q p → idx p < idx q))
      (List.insertionSort r l) := by
  induction l with
  | nil => simp [List.insertionSort]
  | cons a l ih =>
    obtain ⟨ha, hl'⟩ := List.pairwise_cons.1 hl
    simp only [List.insertionSort]
    exact pairwise_orderedInsert_stable r htot htrans idx a _ (ih hl')
      (fun b hb => ha b ((List.perm_insertionSort r l).mem_iff.1 hb))

lemma pairwise_idx_enumFrom {α : Type} (n : ℕ) (l : List α) :
    List.Pairwise (fun p q : ℕ × α => p.1 < q.1) (List.enumFrom n l) := by
  induction l generalizing n with
  | nil => simp
  | cons x xs ih =>
    refine List.pairwise_cons.2 ⟨?_, ih (n + 1)⟩
    rintro ⟨i, v⟩ hp
    have := List.mem_enumFrom hp
    omega

lemma pairwise_idx_pairsOf (probs : List ℚ) :
    List.Pairwise (fun p q : ℚ × ℕ => p.2 < q.2) (pairsOf probs) := by
  unfold pairsOf
  rw [List.pairwise_map, List.enum_eq_enumFrom]
  exact pairwise_idx_enumFrom 0 probs

lemma mem_pairsOf {p : ℚ × ℕ} {probs : List ℚ} (hp : p ∈ pairsOf probs) :
    p.2 < probs.length ∧ probs.getD p.2 0 = p.1 := by
  unfold pairsOf at hp
  obtain ⟨e, he, rfl⟩ := List.mem_map.1 hp
  obtain ⟨i, v⟩ := e
  rw [List.enum_eq_enumFrom] at he
  obtain ⟨-, hlt, hv⟩ := List.mem_enumFrom he
  have hi : i < probs.length := by omega
  refine ⟨hi, ?_⟩
  rw [List.getD_eq_getElem _ _ hi]
  simpa using hv.symm

lemma sortedDesc_pairwise (probs : List ℚ) :
    List.Pairwise (fun p q : ℚ × ℕ => q.1 ≤ p.1 ∧ (p.1 ≤ q.1 → p.2 < q.2))
      (sortedDesc probs) :=
  pairwise_insertionSort_stable (fun a b : ℚ × ℕ => b.1 ≤ a.1)
    (fun a b => le_total b.1 a.1) (fun _ _ _ hab hbc => le_trans hbc hab)
    Prod.snd (pairsOf probs) (pairwise_idx_pairsOf probs)

lemma sortedMain_pairwise (probs : List ℚ) :
    List.Pairwise (fun p q : ℚ × ℕ => q.1 ≤ p.1 ∧ (p.1 ≤ q.1 → q.2 < p.2))
      (sortedMain probs) := by
  unfold sortedMain
  rw [List.pairwise_reverse]
  exact pairwise_insertionSort_stable (fun a b : ℚ × ℕ => a.1 ≤ b.1)
    (fun a b => le_total a.1 b.1) (fun _ _ _ => le_trans)
    Prod.snd (pairsOf probs) (pairwise_idx_pairsOf probs)

lemma pairsOf_length (probs : List ℚ) : (pairsOf probs).length = probs.length := by
  unfold pairsOf
  simp [List.enum_length]

lemma sortedDesc_length (probs : List ℚ) :
    (sortedDesc probs).length = probs.length := by
  unfold sortedDesc
  rw [(List.perm_insertionSort _ _).length_eq, pairsOf_length]

lemma sortedMain_length (probs : List ℚ) :
    (sortedMain probs).length = probs.length := by
  unfold sortedMain
  rw [List.length_reverse, (List.perm_insertionSort _ _).length_eq, pairsOf_length]

/-- C2 (amended): both selections always return `min k n` entries sorted by
non-increasing probability and never fail on `k > n`; `getTopK` of
`src/unnamed/part_000` breaks ties by ascending original index, while the
sorted selection of `imagenetClassesTopK` in `src/main.js` (stable ascending
sort then reverse) breaks ties by descending original index. -/
theorem topK_length_sorted (probs : List ℚ) (k : ℕ) :
    (getTopK probs k).length = min k probs.length ∧
    List.Pairwise (fun a b : PredictionPart =>
      b.probability ≤ a.probability ∧ (a.probability ≤ b.probability → a.id < b.id))
      (getTopK probs k) ∧
    ((sortedMain probs).take k).length = min k probs.length ∧
    List.Pairwise (fun a b : ℚ × ℕ => b.1 ≤ a.1 ∧ (a.1 ≤ b.1 → b.2 < a.2))
      ((sortedMain probs).take k) := by
  refine ⟨?_, ?_, ?_, ?_⟩
  · unfold getTopK
    rw [List.length_map, List.length_take, sortedDesc_length]
  · unfold getTopK
    rw [List.pairwise_map]
    exact List.Pairwise.sublist (List.take_sublist k _) (sortedDesc_pairwise probs)
  · rw [List.length_take, sortedMain_length]
  · exact List.Pairwise.sublist (List.take_sublist k _) (sortedMain_pairwise probs)

/-- Counterexample to C2 as stated: on the tied probabilities `[1, 1]` the
`imagenetClassesTopK` of `src/main.js` returns original indices in the order
`1, 0`, which is not ascending (`¬ 1 < 0`), because the reversal of the
stable ascending sort reverses the order of equal elements. -/
theorem topK_main_tie_descending :
    imagenetClassesTopK [(1 : ℚ), 1] 2 =
      some [{ id := 1, index := 1, name := "goldfish", probability := 1 },
            { id := 0, index := 0, name := "tench", probability := 1 }] ∧
    ¬ ((1 : ℕ) < 0) :=
  ⟨by decide, by decide⟩

/-- C10: every record returned by `getTopK` of `src/unnamed/part_000` is
consistent with its input: the `id` is a valid index into the probability
list and the `probability` field is the input element at that index. -/
theorem getTopK_consistent (probs : List ℚ) (k : ℕ) (r : PredictionPart)
    (hr : r ∈ getTopK probs k) :
    r.id < probs.length ∧ probs.getD r.id 0 = r.probability := by
  unfold getTopK at hr
  obtain ⟨p, hp, rfl⟩ := List.mem_map.1 hr
  have hp2 := (List.take_sublist k (sortedDesc probs)).subset hp
  unfold sortedDesc at hp2
  have hp3 : p ∈ pairsOf probs := (List.perm_insertionSort _ _).mem_iff.1 hp2
  exact mem_pairsOf hp3

/-- Witness for C10: consistency instantiated at the probability list `[1]`
with `k = 1` and the record it returns. -/
theorem getTopK_consistent_witness :
    (⟨0, "tench", (1 : ℚ)⟩ : PredictionPart).id < ([(1 : ℚ)]).length ∧
      ([(1 : ℚ)]).getD (⟨0, "tench", (1 : ℚ)⟩ : PredictionPart).id 0 =
        (⟨0, "tench", (1 : ℚ)⟩ : PredictionPart).probability :=
  getTopK_consistent [1] 1 ⟨0, "tench", 1⟩ (by decide)

lemma buildRecords_eq_none {l : List (ℚ × ℕ)} {p : ℚ × ℕ} (hp : p ∈ l)
    (hnone : imagenetClasses.get? p.2 = none) : buildRecords l = none := by
  induction l with
  | nil => cases hp
  | cons q rest ih =>
    have hnone' := hnone
    rw [List.get?_eq_getElem?] at hnone'
    rcases List.mem_cons.1 hp with rfl | hp'
    · simp [buildRecords, hnone']
    · cases hq : imagenetClasses[q.2]? with
      | none => simp [buildRecords, hq]
      | some c => simp [buildRecords, hq, ih hp']

/-- C6 (amended): every record of `getTopK` in `src/unnamed/part_000` takes
its display name from the class table at its index, synthesizing
`class_<index>` when the index is absent, with underscores replaced by
spaces; `imagenetClassesTopK` in `src/main.js` instead fails (reading
`iClass[0]` of `undefined` throws) whenever a selected index is absent from
the table. -/
theorem topK_name_lookup (probs : List ℚ) (k : ℕ) :
    (∀ r ∈ getTopK probs k,
      r.name = replaceUnderscores (match imagenetClasses.get? r.id with
        | some c => c.2
        | none => "class_" ++ toString r.id)) ∧
    (∀ p ∈ (sortedMain probs).take k, imagenetClasses.get? p.2 = none →
      imagenetClassesTopK probs k = none) := by
  constructor
  · intro r hr
    unfold getTopK at hr
    obtain ⟨p, hp, rfl⟩ := List.mem_map.1 hr
    rfl
  · intro p hp hnone
    exact buildRecords_eq_none hp hnone

/-- Witness for C6: the amended claim instantiated at the input `[1]` with
`k = 1` (table hit, name `tench`) and at twenty zeros followed by a `1`
with `k = 1` (the selected index `20` is absent, so the main.js variant
errors). -/
theorem topK_name_lookup_witness :
    ((⟨0, "tench", (1 : ℚ)⟩ : PredictionPart).name =
      replaceUnderscores (match imagenetClasses.get?
          (⟨0, "tench", (1 : ℚ)⟩ : PredictionPart).id with
        | some c => c.2
        | none => "class_" ++ toString (⟨0, "tench", (1 : ℚ)⟩ : PredictionPart).id)) ∧
    imagenetClassesTopK (List.replicate 20 (0 : ℚ) ++ [1]) 1 = none :=
  ⟨(topK_name_lookup [1] 1).1 ⟨0, "tench", 1⟩ (by decide),
   (topK_name_lookup (List.replicate 20 (0 : ℚ) ++ [1]) 1).2 (1, 20) (by decide)
     (by decide)⟩

/-- Counterexample to C6 as stated: on twenty zeros followed by a `1`, the
selected class index is `20`, which is absent from the table, and
`imagenetClassesTopK` of `src/main.js` fails with a `TypeError` (modelled
`none`) instead of synthesizing the fallback name `class_20`. -/
theorem topK_main_missing_index_fails :
    imagenetClassesTopK (List.replicate 20 (0 : ℚ) ++ [1]) 1 = none := by decide

/-- Pixel buffer handed to the preprocessor: `width`, `height` and the raw
byte array `data` of interleaved R, G, B, A channel values. -/
structure ImageData where
  width : ℕ
  height : ℕ
  data : List ℕ

/-- Model of `imageDataToTensor` from `src/main.js` lines 20-36.  The loop
writes `data[i*4+c] / 255.0` to output position `c * pixelCount + i` for
`c = 0, 1, 2` and `0 ≤ i < pixelCount`, which is exactly the concatenation of
the red, green and blue planes; position `i*4+3` (alpha) is never read.
There is no length check: a JavaScript read past the end of the buffer
yields `undefined`, and `undefined / 255.0` is `NaN`; an entry of `none`
models such a `NaN` garbage value. -/
def imageDataToTensor (image : ImageData) : List (Option ℚ) :=
  let pixelCount := image.width * image.height
  ((List.range pixelCount).map fun i =>
      (image.data.get? (i * 4)).map fun v => (v : ℚ) / 255) ++
  ((List.range pixelCount).map fun i =>
      (image.data.get? (i * 4 + 1)).map fun v => (v : ℚ) / 255) ++
  ((List.range pixelCount).map fun i =>
      (image.data.get? (i * 4 + 2)).map fun v => (v : ℚ) / 255)

lemma getD_map_range {β : Type} (f : ℕ → β) (n i : ℕ) (hi : i < n) (d : β) :
    ((List.range n).map f).getD i d = f i := by
  have h' : i < ((List.range n).map f).length := by simpa using hi
  rw [List.getD_eq_getElem _ _ h', List.getElem_map, List.getElem_range]

lemma tensor_entry_red (image : ImageData) (i : ℕ)
    (hi : i < image.width * image.height) (d : Option ℚ) :
    (imageDataToTensor image).getD i d =
      (image.data.get? (i * 4)).map fun v => (v : ℚ) / 255 := by
  simp only [imageDataToTensor]
  rw [List.getD_append _ _ _ _ (by
    simp only [List.length_append, List.length_map, List.length_range]; omega)]
  rw [List.getD_append _ _ _ _ (by
    simp only [List.length_map, List.length_range]; omega)]
  exact getD_map_range _ _ _ hi _

lemma tensor_entry_green (image : ImageData) (i : ℕ)
    (hi : i < image.width * image.height) (d : Option ℚ) :
    (imageDataToTensor image).getD (image.width * image.height + i) d =
      (image.data.get? (i * 4 + 1)).map fun v => (v : ℚ) / 255 := by
  simp only [imageDataToTensor]
  rw [List.getD_append _ _ _ _ (by
    simp only [List.length_append, List.length_map, List.length_range]; omega)]
  rw [List.getD_append_right _ _ _ _ (by
    simp only [List.length_map, List.length_range]; omega)]
  simp only [List.length_map, List.length_range, Nat.add_sub_cancel_left]
  exact getD_map_range _ _ _ hi _

lemma tensor_entry_blue (image : ImageData) (i : ℕ)
    (hi : i < image.width * image.height) (d : Option ℚ) :
    (imageDataToTensor image).getD (2 * (image.width * image.height) + i) d =
      (image.data.get? (i * 4 + 2)).map fun v => (v : ℚ) / 255 := by
  simp only [imageDataToTensor]
  rw [List.getD_append_right _ _ _ _ (by
    simp only [List.length_append, List.length_map, List.length_range]; omega)]
  simp only [List.length_append, List.length_map, List.length_range]
  rw [show 2 * (image.width * image.height) + i -
      (image.width * image.height + image.width * image.height) = i from by omega]
  exact getD_map_range _ _ _ hi _

/-- C3 (amended): `imageDataToTensor` performs no size validation.  On every
pixel buffer, mismatched or not, it returns a tensor of length
`3 * width * height`, and any entry whose source byte lies past the end of
the buffer is `NaN` (`undefined / 255.0`, modelled `none`) — garbage is
produced instead of an `InvalidInput` error. -/
theorem tensor_no_size_check (image : ImageData) :
    (imageDataToTensor image).length = 3 * (image.width * image.height) ∧
    ∀ i, i < image.width * image.height →
      (image.data.length ≤ i * 4 →
        (imageDataToTensor image).getD i (some 0) = none) ∧
      (image.data.length ≤ i * 4 + 1 →
        (imageDataToTensor image).getD
          (image.width * image.height + i) (some 0) = none) ∧
      (image.data.length ≤ i * 4 + 2 →
        (imageDataToTensor image).getD
          (2 * (image.width * image.height) + i) (some 0) = none) := by
  constructor
  · simp only [imageDataToTensor, List.length_append, List.length_map,
      List.length_range]
    ring
  · intro i hi
    refine ⟨fun hlen => ?_, fun hlen => ?_, fun hlen => ?_⟩
    · rw [tensor_entry_red image i hi, List.get?_eq_none.2 hlen]
      rfl
    · rw [tensor_entry_green image i hi, List.get?_eq_none.2 hlen]
      rfl
    · rw [tensor_entry_blue image i hi, List.get?_eq_none.2 hlen]
      rfl

/-- Witness for C3 (amended): the 1×1 image with an empty (mismatched) pixel
buffer still yields a length-3 tensor whose red, green and blue entries for
pixel 0 are all `NaN`. -/
theorem tensor_no_size_check_witness :
    (imageDataToTensor ⟨1, 1, []⟩).length = 3 * ((1 : ℕ) * 1) ∧
    (imageDataToTensor ⟨1, 1, []⟩).getD 0 (some 0) = none ∧
    (imageDataToTensor ⟨1, 1, []⟩).getD 1 (some 0) = none ∧
    (imageDataToTensor ⟨1, 1, []⟩).getD 2 (some 0) = none := by
  have h := tensor_no_size_check ⟨1, 1, []⟩
  have h2 := h.2 0 (by decide)
  exact ⟨h.1, h2.1 (by decide), h2.2.1 (by decide), h2.2.2 (by decide)⟩

/-- Counterexample to C3 as stated: the empty pixel buffer for a 1×1 image
has mismatched length (`0 ≠ 4`), yet `imageDataToTensor` does not fail — it
returns the garbage tensor `[NaN, NaN, NaN]`. -/
theorem tensor_mismatch_no_error :
    (⟨1, 1, []⟩ : ImageData).data.length ≠ 4 * ((1 : ℕ) * 1) ∧
    imageDataToTensor ⟨1, 1, []⟩ = [none, none, none] :=
  ⟨by decide, by decide⟩

/-- C4: on a well-sized RGBA buffer the tensor is channel-planar: position
`c * pixelCount + i` holds channel `c` of pixel `i` divided by 255, for the
red, green and blue channels, and the output is independent of the alpha
bytes (positions `j` with `j % 4 = 3` are never read). -/
theorem tensor_planar (image : ImageData)
    (hlen : image.data.length = 4 * (image.width * image.height))
    (i : ℕ) (hi : i < image.width * image.height) :
    (imageDataToTensor image).length = 3 * (image.width * image.height) ∧
    (imageDataToTensor image).getD (0 * (image.width * image.height) + i) none =
      some ((image.data.getD (i * 4) 0 : ℚ) / 255) ∧
    (imageDataToTensor image).getD (1 * (image.width * image.height) + i) none =
      some ((image.data.getD (i * 4 + 1) 0 : ℚ) / 255) ∧
    (imageDataToTensor image).getD (2 * (image.width * image.height) + i) none =
      some ((image.data.getD (i * 4 + 2) 0 : ℚ) / 255) ∧
    ∀ d' : List ℕ, (∀ j, j % 4 ≠ 3 → d'.get? j = image.data.get? j) →
      imageDataToTensor ⟨image.width, image.height, d'⟩ = imageDataToTensor image := by
  have hb0 : i * 4 < image.data.length := by omega
  have hb1 : i * 4 + 1 < image.data.length := by omega
  have hb2 : i * 4 + 2 < image.data.length := by omega
  refine ⟨?_, ?_, ?_, ?_, ?_⟩
  · simp only [imageDataToTensor, List.length_append, List.length_map,
      List.length_range]
    ring
  · rw [Nat.zero_mul, Nat.zero_add, tensor_entry_red image i hi,
      List.get?_eq_getElem?, List.getElem?_eq_getElem hb0]
    simp [List.getD_eq_getElem?_getD, List.getElem?_eq_getElem hb0]
  · rw [Nat.one_mul, tensor_entry_green image i hi,
      List.get?_eq_getElem?, List.getElem?_eq_getElem hb1]
    simp [List.getD_eq_getElem?_getD, List.getElem?_eq_getElem hb1]
  · rw [tensor_entry_blue image i hi,
      List.get?_eq_getElem?, List.getElem?_eq_getElem hb2]
    simp [List.getD_eq_getElem?_getD, List.getElem?_eq_getElem hb2]
  · intro d' hd'
    simp only [imageDataToTensor]
    congr 1
    · congr 1
      · exact List.map_congr_left fun a _ => by rw [hd' (a * 4) (by omega)]
      · exact List.map_congr_left fun a _ => by rw [hd' (a * 4 + 1) (by omega)]
    · exact List.map_congr_left fun a _ => by rw [hd' (a * 4 + 2) (by omega)]

/-- The 2×2 example buffer from the specification: a red, a green, a blue and
a white pixel, all fully opaque. -/
def exampleImage : ImageData :=
  ⟨2, 2, [255, 0, 0, 255, 0, 255, 0, 255, 0, 0, 255, 255, 255, 255, 255, 255]⟩

/-- Witness for C4: the planar contract instantiated at the 2×2 example
buffer and pixel 0, together with the full expected tensor
`[1,0,0,1, 0,1,0,1, 0,0,1,1]`. -/
theorem tensor_planar_witness :
    ((imageDataToTensor exampleImage).getD 0 none = some ((255 : ℚ) / 255)) ∧
    ((imageDataToTensor exampleImage).getD 4 none = some ((0 : ℚ) / 255)) ∧
    ((imageDataToTensor exampleImage).getD 8 none = some ((0 : ℚ) / 255)) ∧
    imageDataToTensor exampleImage =
      [some 1, some 0, some 0, some 1, some 0, some 1, some 0, some 1,
       some 0, some 0, some 1, some 1] := by
  have h := tensor_planar exampleImage rfl 0 (by decide)
  refine ⟨?_, ?_, ?_, ?_⟩
  · simpa [exampleImage] using h.2.1
  · simpa [exampleImage] using h.2.2.1
  · simpa [exampleImage] using h.2.2.2.1
  · norm_num [imageDataToTensor, exampleImage, List.range_succ]

end WebNN
